import Mathlib

/-!
Verification development for the inventory simulation engine in
`Modules/simulation.py` of the second-brain hackathon repository.

The Python module is shallowly embedded below:
  * machine floats are modelled as exact rationals (`ℚ`), with the source's
    literal `1e-9` tolerance kept as the rational `eps`;
  * ledger quantities are integers (`ℤ`);
  * Python dicts are modelled as insertion-ordered association lists
    (`List (SKU × ℤ)`) where iteration order matters (the pending batch),
    and as plain functions where only point lookups occur (the per-SKU
    ledger columns and policy maps);
  * the interactive confirmation prompt is an oracle `Bool` per day.
-/

abbrev SKU := String

/-- Source constant `TRUCK_MIN_TONS = 10` (simulation.py line 29). -/
def TRUCK_MIN_TONS : ℚ := 10

/-- Source constant `TRUCK_MAX_TONS = 12` (simulation.py line 30). -/
def TRUCK_MAX_TONS : ℚ := 12

/-- Source constant `DEFAULT_LEAD_DAYS = 7` (simulation.py line 31). -/
def DEFAULT_LEAD_DAYS : ℕ := 7

/-- The literal `1e-9` appearing in `as_int`. -/
def eps : ℚ := 1 / 1000000000

/-- `as_int(x)`: `max(0, int(math.floor(float(x) + 1e-9)))` (simulation.py
lines 37-42).  The `except` branch never fires on numeric input. -/
def as_int (x : ℚ) : ℤ := max 0 ⌊x + eps⌋

/-- Python `\s` whitespace class over ASCII. -/
def isPySpace (c : Char) : Bool :=
  c = ' ' || c = '\t' || c = '\n' || c = '\r' || c = '\x0b' || c = '\x0c'

/-- Numeric value of a digit string (most significant first). -/
def digitsVal (l : List Char) : ℕ :=
  l.foldl (fun a c => 10 * a + (c.toNat - 48)) 0

/-- Parse the regex fragment `\d+(?:\.\d+)?` at the head of `l`; returns the
matched value and the rest of the input.  When a `'.'` follows the integer
digits but no digit follows the `'.'`, the optional group fails and the
match falls back to the integer part alone, exactly as the regex engine
backtracks. -/
def parseNum (l : List Char) : Option (ℚ × List Char) :=
  let ds := l.takeWhile Char.isDigit
  let rest := l.dropWhile Char.isDigit
  if ds.isEmpty then none
  else
    match rest with
    | '.' :: rest2 =>
      let fs := rest2.takeWhile Char.isDigit
      let rest3 := rest2.dropWhile Char.isDigit
      if fs.isEmpty then some ((digitsVal ds : ℚ), rest)
      else some ((digitsVal ds : ℚ) + (digitsVal fs : ℚ) / (10 : ℚ) ^ fs.length, rest3)
    | _ => some ((digitsVal ds : ℚ), rest)

/-- Try to match `(\d+(?:\.\d+)?)\s*MM` starting exactly at the head of `l`.
Greedy matching needs no further backtracking here because the digit class,
the whitespace class, and the literal `M` are pairwise disjoint. -/
def matchMMAt (l : List Char) : Option ℚ :=
  match parseNum l with
  | none => none
  | some (v, rest) =>
    match rest.dropWhile isPySpace with
    | 'M' :: 'M' :: _ => some v
    | _ => none

/-- `re.search(r'(\d+(?:\.\d+)?)\s*MM', text)`: leftmost match wins. -/
def searchMM : List Char → Option ℚ
  | [] => none
  | c :: cs =>
    match matchMMAt (c :: cs) with
    | some v => some v
    | none => searchMM cs

/-- The fallback branch of `piece_weight_kg`: thickness token times `2.24`,
else the flat `40.0` (simulation.py lines 55-58).  `(sku or "").upper()` is
the char-wise ASCII uppercase of the label. -/
def fallback_weight (sku : SKU) : ℚ :=
  match searchMM (sku.data.map Char.toUpper) with
  | some t => t * (224 / 100)
  | none => 40

/-- `piece_weight_kg(sku, weight_map)` (simulation.py lines 51-58).  The
weight map is partial: `sku in weight_map` is modelled by `Option`. -/
def piece_weight_kg (sku : SKU) (wm : SKU → Option ℚ) : ℚ :=
  match wm sku with
  | some w => if 0 < w then w else fallback_weight sku
  | none => fallback_weight sku

/-- `qty_to_tons(sku, q, weight_map)` (simulation.py lines 60-61). -/
def qty_to_tons (sku : SKU) (q : ℤ) (wm : SKU → Option ℚ) : ℚ :=
  piece_weight_kg sku wm * ((as_int (q : ℚ) : ℤ) : ℚ) / 1000

/-- `batch_tons(batch)` (simulation.py lines 218-219). -/
def batch_tons (wm : SKU → Option ℚ) (l : List (SKU × ℤ)) : ℚ :=
  (l.map (fun p => qty_to_tons p.1 p.2 wm)).sum

/-- Stable insertion into an ascending-by-key list; an element is placed
before the first entry of key not smaller than its own, so earlier list
entries with an equal key stay earlier. -/
def insSorted (f : SKU × ℤ → ℚ) (x : SKU × ℤ) : List (SKU × ℤ) → List (SKU × ℤ)
  | [] => [x]
  | y :: ys => if f x ≤ f y then x :: y :: ys else y :: insSorted f x ys

/-- Stable ascending sort by key: the model of Python's stable `sorted`. -/
def sortByKey (f : SKU × ℤ → ℚ) (l : List (SKU × ℤ)) : List (SKU × ℤ) :=
  l.foldr (insSorted f) []

/-- The quantity admitted for the SKU that would overflow the truck:
`as_int(remaining_kg / unit_kg) if unit_kg > 0 else 0` (simulation.py
line 243). -/
def overflow_allowed (wm : SKU → Option ℚ) (s : SKU) (remaining_kg : ℚ) : ℤ :=
  let unit_kg := piece_weight_kg s wm
  if 0 < unit_kg then as_int (remaining_kg / unit_kg) else 0

/-- The packing loop of `propose_batch` (simulation.py lines 230-247):
whole SKUs while the running total stays within `TRUCK_MAX_TONS`; for the
first overflowing SKU a truncated whole-unit quantity, then stop. -/
def packLoop (wm : SKU → Option ℚ) :
    List (SKU × ℤ) → List (SKU × ℤ) → ℚ → List (SKU × ℤ) × ℚ
  | [], chosen, total_tons => (chosen, total_tons)
  | (s, q0) :: rest, chosen, total_tons =>
    let q : ℤ := max 0 q0
    if q ≤ 0 then packLoop wm rest chosen total_tons
    else
      let cur_tons := qty_to_tons s q wm
      if total_tons + cur_tons ≤ TRUCK_MAX_TONS then
        packLoop wm rest (chosen ++ [(s, q)]) (total_tons + cur_tons)
      else
        let remaining_kg := max 0 (TRUCK_MAX_TONS * 1000 - total_tons * 1000)
        let allowed := overflow_allowed wm s remaining_kg
        if 0 < allowed then (chosen ++ [(s, allowed)], total_tons + qty_to_tons s allowed wm)
        else (chosen, total_tons)

/-- `propose_batch()` (simulation.py lines 221-251), as a function of the
pending batch (insertion-ordered association list) and the weight map.
Returns `(can_make, chosen, total_tons)`. -/
def propose_batch (wm : SKU → Option ℚ) (pend : List (SKU × ℤ)) :
    Bool × List (SKU × ℤ) × ℚ :=
  if pend.isEmpty then (false, [], 0)
  else
    let items := sortByKey (fun p => -qty_to_tons p.1 p.2 wm) pend
    let total_pending := batch_tons wm pend
    if total_pending < TRUCK_MIN_TONS then (false, [], total_pending)
    else
      let r := packLoop wm items [] 0
      if TRUCK_MIN_TONS ≤ r.2 then (true, r.1, r.2)
      else (false, [], r.2)

/-- An open purchase order: `{"eta": ..., "items": proposal}`
(simulation.py line 259).  Days are indices into the simulated range. -/
structure PO where
  eta : ℕ
  items : List (SKU × ℤ)

/-- The mutable simulation state: the per-SKU ledger columns, the pending
batch (insertion-ordered dict), the in-transit purchase orders, and the
cumulative fill-rate counters. -/
structure SimState where
  on_hand : SKU → ℤ
  on_order : SKU → ℤ
  backorders : SKU → ℤ
  pending : List (SKU × ℤ)
  transit : List PO
  cum_demand : ℤ
  cum_shipped : ℤ

/-- The static inputs of `simulate`: the SKU universe, the policy maps
(defaulting maps are total functions), the weight map, and the demand
matrix (day index → SKU → raw quantity). -/
structure Params where
  skus : List SKU
  mu_map : SKU → ℚ
  ss_map : SKU → ℚ
  rop_map : SKU → ℚ
  eoq_map : SKU → ℚ
  weight_map : SKU → Option ℚ
  demand : ℕ → SKU → ℚ

/-- Dict read with default 0 (`defaultdict(int)` lookup on the pending
batch, without the value-irrelevant insert-on-read side effect). -/
def getv (l : List (SKU × ℤ)) (s : SKU) : ℤ :=
  match l.find? (fun p => p.1 == s) with
  | some p => p.2
  | none => 0

/-- Dict write: update the first entry in place, else append (Python dicts
keep insertion order and hold one entry per key). -/
def setv : List (SKU × ℤ) → SKU → ℤ → List (SKU × ℤ)
  | [], s, v => [(s, v)]
  | (a, b) :: t, s, v => if a = s then (s, v) :: t else (a, b) :: setv t s v

/-- Fold of `f[s] += sign * as_int(q)` over an item list, as done for
`on_order` in `place_order` and for `on_hand`/`on_order` at arrival. -/
def addQty (sign : ℤ) (f : SKU → ℤ) (items : List (SKU × ℤ)) : SKU → ℤ :=
  items.foldl (fun g p => Function.update g p.1 (g p.1 + sign * max 0 p.2)) f

/-- Total `as_int` quantity an item list carries for one SKU. -/
def itemsSum (items : List (SKU × ℤ)) (x : SKU) : ℤ :=
  (items.map (fun p => if p.1 = x then max 0 p.2 else 0)).sum

/-- Total in-transit quantity for one SKU across a PO list. -/
def transitSum (l : List PO) (s : SKU) : ℤ :=
  (l.map (fun po => itemsSum po.items s)).sum

/-- `inventory_position(sku)` (simulation.py lines 207-208): the sum is
passed through `as_int`, so the result is the value clamped at zero. -/
def inventory_position (st : SimState) (s : SKU) : ℤ :=
  as_int (((st.on_hand s + st.on_order s - st.backorders s : ℤ) : ℚ))

/-- `order_need_qty(sku)` (simulation.py lines 210-216). -/
def order_need_qty (P : Params) (st : SimState) (s : SKU) : ℤ :=
  let ip := inventory_position st s
  let target := P.mu_map s * 45 + P.ss_map s
  let gap := max 0 (target - (ip : ℚ))
  let structural_need := as_int ((st.backorders s : ℤ) : ℚ) + as_int gap
  max (as_int (P.eoq_map s)) structural_need

/-- Receiving one arrived PO (simulation.py lines 271-275). -/
def poArrive (st : SimState) (po : PO) : SimState :=
  { st with on_hand := addQty 1 st.on_hand po.items,
            on_order := addQty (-1) st.on_order po.items }

/-- Step 1 of the day loop (simulation.py lines 268-276): realize every PO
whose ETA is today, then drop them from the in-transit list. -/
def arrivalsPhase (day : ℕ) (st : SimState) : SimState :=
  let arr := st.transit.filter (fun po => po.eta == day)
  let st1 := arr.foldl poArrive st
  { st1 with transit := st.transit.filter (fun po => po.eta != day) }

/-- Demand fulfilment for one SKU (simulation.py lines 289-300): returns
the new `(on_hand, backorders, shipped)` triple for that SKU. -/
def shipSku (sold oh bo : ℤ) : ℤ × ℤ × ℤ :=
  if 0 < sold then
    if sold ≤ oh then (oh - sold, bo, sold)
    else (0, bo + (sold - oh), oh)
  else (oh, bo, 0)

/-- Trigger check after shipping (simulation.py lines 302-308): raise the
SKU's pending entry to the freshly computed need when the need is positive
and exceeds what was already pending. -/
def triggerSku (P : Params) (st : SimState) (s : SKU) : List (SKU × ℤ) :=
  if (inventory_position st s : ℚ) ≤ P.rop_map s then
    let need := order_need_qty P st s
    if 0 < need then
      let prev := max 0 (getv st.pending s)
      if prev < need then setv st.pending s need else st.pending
    else st.pending
  else st.pending

/-- One iteration of the per-SKU demand-and-trigger loop, threading the
day's demand and shipped counters. -/
def skuStep (P : Params) (day : ℕ) (acc : SimState × ℤ × ℤ) (s : SKU) :
    SimState × ℤ × ℤ :=
  let st := acc.1
  let sold := as_int (P.demand day s)
  let r := shipSku sold (st.on_hand s) (st.backorders s)
  let st1 := { st with on_hand := Function.update st.on_hand s r.1,
                       backorders := Function.update st.backorders s r.2.1 }
  let st2 := { st1 with pending := triggerSku P st1 s }
  (st2, acc.2.1 + (if 0 < sold then sold else 0), acc.2.2 + r.2.2)

/-- Step 2-3 of the day loop: process demand and triggers over the whole
SKU universe; returns the state plus `(day_demand, day_shipped)`. -/
def demandPhase (P : Params) (day : ℕ) (st : SimState) : SimState × ℤ × ℤ :=
  P.skus.foldl (skuStep P day) (st, 0, 0)

/-- `place_order(today, proposal)` (simulation.py lines 253-262):
`on_order += as_int(q)` per item, append the PO with
`eta = today + DEFAULT_LEAD_DAYS`, and pop every proposed SKU from the
pending batch. -/
def place_order (day : ℕ) (proposal : List (SKU × ℤ)) (st : SimState) : SimState :=
  { st with on_order := addQty 1 st.on_order proposal,
            transit := st.transit ++ [⟨day + DEFAULT_LEAD_DAYS, proposal⟩],
            pending := st.pending.filter (fun p => !(proposal.map Prod.fst).contains p.1) }

/-- Step 4 of the day loop (simulation.py lines 333-352): propose a batch;
when it can be made, obtain the confirmation decision `dec`; on acceptance
commit via `place_order`, on rejection change nothing. -/
def confirmPhase (P : Params) (day : ℕ) (dec : Bool) (st : SimState) : SimState :=
  let r := propose_batch P.weight_map st.pending
  if r.1 then (if dec then place_order day r.2.1 st else st) else st

/-- One full simulated day: arrivals, demand and triggers, cumulative
counter update, batch proposal and confirmation. -/
def dayStep (P : Params) (dec : Bool) (day : ℕ) (st : SimState) : SimState :=
  let stA := arrivalsPhase day st
  let d := demandPhase P day stA
  let stC := { d.1 with cum_demand := d.1.cum_demand + d.2.1,
                        cum_shipped := d.1.cum_shipped + d.2.2 }
  confirmPhase P day dec stC

/-- `cum_fill_rate` (simulation.py line 318). -/
def cum_fill_rate (st : SimState) : ℚ :=
  if 0 < st.cum_demand then (st.cum_shipped : ℚ) / (st.cum_demand : ℚ) * 100 else 100

/-- `cum_bo_ratio = 100.0 - cum_fill_rate` (simulation.py line 319). -/
def cum_bo_ratio (st : SimState) : ℚ := 100 - cum_fill_rate st

/-- Initial state (simulation.py lines 190-204): on-hand seeded through
`as_int` from the snapshot, everything else empty/zero. -/
def initState (inv0 : SKU → ℚ) : SimState :=
  { on_hand := fun s => as_int (inv0 s)
    on_order := fun _ => 0
    backorders := fun _ => 0
    pending := []
    transit := []
    cum_demand := 0
    cum_shipped := 0 }

/-- The simulation loop: state after `n` days, with per-day confirmation
decisions `dec`. -/
def runSim (P : Params) (dec : ℕ → Bool) (inv0 : SKU → ℚ) : ℕ → SimState
  | 0 => initState inv0
  | n + 1 => dayStep P (dec n) n (runSim P dec inv0 n)

/-! ### Basic facts about the helpers -/

theorem eps_pos : 0 < eps := by norm_num [eps]

theorem eps_lt_one : eps < 1 := by norm_num [eps]

theorem as_int_nonneg (x : ℚ) : 0 ≤ as_int x := le_max_left 0 _

theorem as_int_intCast (n : ℤ) : as_int ((n : ℤ) : ℚ) = max 0 n := by
  unfold as_int
  rw [Int.floor_int_add]
  norm_num [eps]

theorem as_int_intCast_of_nonneg {n : ℤ} (h : 0 ≤ n) : as_int ((n : ℤ) : ℚ) = n := by
  rw [as_int_intCast]
  exact max_eq_right h

/-- `as_int` overshoots its argument by at most the `1e-9` tolerance. -/
theorem as_int_cast_le (x : ℚ) (hx : 0 ≤ x) : ((as_int x : ℤ) : ℚ) ≤ x + eps := by
  unfold as_int
  have h1 : ((⌊x + eps⌋ : ℤ) : ℚ) ≤ x + eps := Int.floor_le _
  have h2 : (0 : ℚ) ≤ x + eps := add_nonneg hx (le_of_lt eps_pos)
  rcases le_total 0 ⌊x + eps⌋ with h | h
  · rwa [max_eq_right h]
  · rw [max_eq_left h]
    exact_mod_cast h2

theorem qty_to_tons_nonneg_of_pw (sku : SKU) (q : ℤ) (wm : SKU → Option ℚ)
    (hpw : 0 ≤ piece_weight_kg sku wm) : 0 ≤ qty_to_tons sku q wm := by
  unfold qty_to_tons
  have h : (0 : ℚ) ≤ ((as_int ((q : ℤ) : ℚ) : ℤ) : ℚ) := by
    exact_mod_cast as_int_nonneg _
  positivity

/-! ### Pointwise characterisation of the item-list folds -/

theorem itemsSum_nonneg (items : List (SKU × ℤ)) (x : SKU) : 0 ≤ itemsSum items x := by
  unfold itemsSum
  apply List.sum_nonneg
  intro a ha
  rcases List.mem_map.mp ha with ⟨p, _, rfl⟩
  by_cases h : p.1 = x <;> simp [h]

theorem transitSum_nonneg (l : List PO) (s : SKU) : 0 ≤ transitSum l s := by
  unfold transitSum
  apply List.sum_nonneg
  intro a ha
  rcases List.mem_map.mp ha with ⟨po, _, rfl⟩
  exact itemsSum_nonneg _ _
theorem addQty_apply (sign : ℤ) (items : List (SKU × ℤ)) (f : SKU → ℤ) (x : SKU) :
    addQty sign f items x = f x + sign * itemsSum items x := by
  induction items generalizing f with
  | nil => simp [addQty, itemsSum]
  | cons p t ih =>
    unfold addQty at ih ⊢
    rw [List.foldl_cons, ih]
    unfold itemsSum
    rw [List.map_cons, List.sum_cons]
    by_cases h : p.1 = x
    · subst h
      rw [if_pos rfl, Function.update_same]
      ring
    · rw [if_neg h, Function.update_noteq (Ne.symm h)]
      ring

theorem transitSum_append (l₁ l₂ : List PO) (s : SKU) :
    transitSum (l₁ ++ l₂) s = transitSum l₁ s + transitSum l₂ s := by
  unfold transitSum
  rw [List.map_append, List.sum_append]

theorem transitSum_filter_split (l : List PO) (day : ℕ) (s : SKU) :
    transitSum l s =
      transitSum (l.filter (fun po => po.eta == day)) s +
      transitSum (l.filter (fun po => po.eta != day)) s := by
  simp only [bne]
  induction l with
  | nil => simp [transitSum]
  | cons po t ih =>
    simp only [transitSum, List.map_cons, List.sum_cons, List.filter_cons] at ih ⊢
    by_cases h : po.eta = day
    · have h1 : (po.eta == day) = true := beq_iff_eq.mpr h
      simp only [h1, Bool.not_true, if_true, Bool.false_eq_true, if_false,
        List.map_cons, List.sum_cons]
      omega
    · have h1 : (po.eta == day) = false := beq_eq_false_iff_ne.mpr h
      simp only [h1, Bool.not_false, Bool.false_eq_true, if_false, if_true,
        List.map_cons, List.sum_cons]
      omega

/-! ### getv / setv / filter lemmas for the pending dict -/

theorem getv_setv (l : List (SKU × ℤ)) (s x : SKU) (v : ℤ) :
    getv (setv l s v) x = if s = x then v else getv l x := by
  induction l with
  | nil =>
    by_cases h : s = x
    · simp [setv, getv, List.find?, h]
    · simp [setv, getv, List.find?, beq_eq_false_iff_ne.mpr h, h]
  | cons p t ih =>
    rcases p with ⟨a, b⟩
    simp only [setv]
    by_cases has : a = s
    · subst has
      rw [if_pos rfl]
      by_cases hax : a = x
      · subst hax
        simp [getv, List.find?]
      · simp [getv, List.find?, beq_eq_false_iff_ne.mpr hax, hax]
    · rw [if_neg has]
      by_cases hax : a = x
      · subst hax
        have hsx : ¬ s = a := fun hh => has hh.symm
        simp [getv, List.find?, hsx]
      · have hb : (a == x) = false := beq_eq_false_iff_ne.mpr hax
        simp only [getv, List.find?, hb] at ih ⊢
        exact ih

theorem getv_filter_mem (l : List (SKU × ℤ)) (keys : List SKU) (s : SKU)
    (hs : s ∈ keys) :
    getv (l.filter (fun p => !keys.contains p.1)) s = 0 := by
  induction l with
  | nil => simp [getv]
  | cons p t ih =>
    by_cases h : p.1 ∈ keys
    · have hc : keys.contains p.1 = true := by simp [h]
      simp only [List.filter_cons, hc, Bool.not_true, Bool.false_eq_true, if_false]
      exact ih
    · have hc : keys.contains p.1 = false := by simp [h]
      simp only [List.filter_cons, hc, Bool.not_false, if_true]
      have hps : (p.1 == s) = false := by
        rw [beq_eq_false_iff_ne]
        intro he
        exact h (he ▸ hs)
      simp only [getv, List.find?, hps] at ih ⊢
      exact ih

theorem getv_filter_not_mem (l : List (SKU × ℤ)) (keys : List SKU) (s : SKU)
    (hs : ¬ s ∈ keys) :
    getv (l.filter (fun p => !keys.contains p.1)) s = getv l s := by
  induction l with
  | nil => simp [getv]
  | cons p t ih =>
    by_cases hps : p.1 = s
    · subst hps
      have hc : keys.contains p.1 = false := by simp [hs]
      simp only [List.filter_cons, hc, Bool.not_false, if_true]
      simp [getv, List.find?]
    · have hb : (p.1 == s) = false := beq_eq_false_iff_ne.mpr hps
      by_cases h : p.1 ∈ keys
      · have hc : keys.contains p.1 = true := by simp [h]
        simp only [List.filter_cons, hc, Bool.not_true, Bool.false_eq_true, if_false]
        rw [ih]
        simp [getv, List.find?, hb]
      · have hc : keys.contains p.1 = false := by simp [h]
        simp only [List.filter_cons, hc, Bool.not_false, if_true]
        simp only [getv, List.find?, hb] at ih ⊢
        exact ih

/-! ### Arrivals-phase equations -/

/-- Units arriving for SKU `s` on day `day`: the in-transit quantity carried
by the purchase orders whose ETA is today. -/
def arrivalsQty (st : SimState) (day : ℕ) (s : SKU) : ℤ :=
  transitSum (st.transit.filter (fun po => po.eta == day)) s

theorem foldl_poArrive_on_hand (l : List PO) (st : SimState) (s : SKU) :
    (l.foldl poArrive st).on_hand s = st.on_hand s + transitSum l s := by
  induction l generalizing st with
  | nil => simp [transitSum]
  | cons po t ih =>
    rw [List.foldl_cons, ih]
    unfold poArrive transitSum
    simp only [List.map_cons, List.sum_cons]
    rw [addQty_apply]
    ring

theorem foldl_poArrive_on_order (l : List PO) (st : SimState) (s : SKU) :
    (l.foldl poArrive st).on_order s = st.on_order s - transitSum l s := by
  induction l generalizing st with
  | nil => simp [transitSum]
  | cons po t ih =>
    rw [List.foldl_cons, ih]
    unfold poArrive transitSum
    simp only [List.map_cons, List.sum_cons]
    rw [addQty_apply]
    ring

theorem foldl_poArrive_rest (l : List PO) (st : SimState) :
    (l.foldl poArrive st).backorders = st.backorders ∧
    (l.foldl poArrive st).pending = st.pending ∧
    (l.foldl poArrive st).transit = st.transit ∧
    (l.foldl poArrive st).cum_demand = st.cum_demand ∧
    (l.foldl poArrive st).cum_shipped = st.cum_shipped := by
  induction l generalizing st with
  | nil => exact ⟨rfl, rfl, rfl, rfl, rfl⟩
  | cons po t ih => exact ih (poArrive st po)

theorem arrivalsPhase_on_hand (day : ℕ) (st : SimState) (s : SKU) :
    (arrivalsPhase day st).on_hand s = st.on_hand s + arrivalsQty st day s := by
  unfold arrivalsPhase arrivalsQty
  exact foldl_poArrive_on_hand _ _ _

theorem arrivalsPhase_on_order (day : ℕ) (st : SimState) (s : SKU) :
    (arrivalsPhase day st).on_order s = st.on_order s - arrivalsQty st day s := by
  unfold arrivalsPhase arrivalsQty
  exact foldl_poArrive_on_order _ _ _

theorem arrivalsPhase_backorders (day : ℕ) (st : SimState) :
    (arrivalsPhase day st).backorders = st.backorders :=
  (foldl_poArrive_rest _ _).1

theorem arrivalsPhase_pending (day : ℕ) (st : SimState) :
    (arrivalsPhase day st).pending = st.pending :=
  (foldl_poArrive_rest _ _).2.1

theorem arrivalsPhase_transit (day : ℕ) (st : SimState) :
    (arrivalsPhase day st).transit = st.transit.filter (fun po => po.eta != day) := rfl

theorem arrivalsPhase_cum (day : ℕ) (st : SimState) :
    (arrivalsPhase day st).cum_demand = st.cum_demand ∧
    (arrivalsPhase day st).cum_shipped = st.cum_shipped :=
  ⟨(foldl_poArrive_rest _ _).2.2.2.1, (foldl_poArrive_rest _ _).2.2.2.2⟩

/-! ### Demand-phase frame lemmas -/

theorem skuStep_on_order (P : Params) (day : ℕ) (acc : SimState × ℤ × ℤ) (x : SKU) :
    (skuStep P day acc x).1.on_order = acc.1.on_order := rfl

theorem skuStep_transit (P : Params) (day : ℕ) (acc : SimState × ℤ × ℤ) (x : SKU) :
    (skuStep P day acc x).1.transit = acc.1.transit := rfl

theorem skuStep_cum (P : Params) (day : ℕ) (acc : SimState × ℤ × ℤ) (x : SKU) :
    (skuStep P day acc x).1.cum_demand = acc.1.cum_demand ∧
    (skuStep P day acc x).1.cum_shipped = acc.1.cum_shipped := ⟨rfl, rfl⟩

theorem skuStep_on_hand_ne (P : Params) (day : ℕ) (acc : SimState × ℤ × ℤ) (x s : SKU)
    (h : x ≠ s) :
    (skuStep P day acc x).1.on_hand s = acc.1.on_hand s := by
  unfold skuStep
  exact Function.update_noteq (Ne.symm h) _ _

theorem skuStep_backorders_ne (P : Params) (day : ℕ) (acc : SimState × ℤ × ℤ) (x s : SKU)
    (h : x ≠ s) :
    (skuStep P day acc x).1.backorders s = acc.1.backorders s := by
  unfold skuStep
  exact Function.update_noteq (Ne.symm h) _ _

theorem foldl_skuStep_on_order (P : Params) (day : ℕ) (l : List SKU) (acc : SimState × ℤ × ℤ) :
    (l.foldl (skuStep P day) acc).1.on_order = acc.1.on_order := by
  induction l generalizing acc with
  | nil => rfl
  | cons x t ih => rw [List.foldl_cons, ih, skuStep_on_order]

theorem foldl_skuStep_transit (P : Params) (day : ℕ) (l : List SKU) (acc : SimState × ℤ × ℤ) :
    (l.foldl (skuStep P day) acc).1.transit = acc.1.transit := by
  induction l generalizing acc with
  | nil => rfl
  | cons x t ih => rw [List.foldl_cons, ih, skuStep_transit]

theorem foldl_skuStep_cum (P : Params) (day : ℕ) (l : List SKU) (acc : SimState × ℤ × ℤ) :
    (l.foldl (skuStep P day) acc).1.cum_demand = acc.1.cum_demand ∧
    (l.foldl (skuStep P day) acc).1.cum_shipped = acc.1.cum_shipped := by
  induction l generalizing acc with
  | nil => exact ⟨rfl, rfl⟩
  | cons x t ih => exact ih (skuStep P day acc x)

theorem foldl_skuStep_on_hand_not_mem (P : Params) (day : ℕ) (l : List SKU)
    (acc : SimState × ℤ × ℤ) (s : SKU) (h : ¬ s ∈ l) :
    (l.foldl (skuStep P day) acc).1.on_hand s = acc.1.on_hand s ∧
    (l.foldl (skuStep P day) acc).1.backorders s = acc.1.backorders s := by
  induction l generalizing acc with
  | nil => exact ⟨rfl, rfl⟩
  | cons x t ih =>
    have hx : x ≠ s := fun he => h (he ▸ List.mem_cons_self x t)
    have ht : ¬ s ∈ t := fun hm => h (List.mem_cons_of_mem x hm)
    rw [List.foldl_cons]
    rcases ih (skuStep P day acc x) ht with ⟨h1, h2⟩
    rw [h1, h2, skuStep_on_hand_ne P day acc x s hx, skuStep_backorders_ne P day acc x s hx]
    exact ⟨rfl, rfl⟩

/-! ### Confirm-phase frame lemmas -/

theorem place_order_on_hand (day : ℕ) (proposal : List (SKU × ℤ)) (st : SimState) :
    (place_order day proposal st).on_hand = st.on_hand := rfl

theorem place_order_backorders (day : ℕ) (proposal : List (SKU × ℤ)) (st : SimState) :
    (place_order day proposal st).backorders = st.backorders := rfl

theorem confirmPhase_on_hand (P : Params) (day : ℕ) (dec : Bool) (st : SimState) :
    (confirmPhase P day dec st).on_hand = st.on_hand := by
  unfold confirmPhase
  by_cases h : (propose_batch P.weight_map st.pending).1 <;> cases dec <;> simp [h, place_order_on_hand]

theorem confirmPhase_backorders (P : Params) (day : ℕ) (dec : Bool) (st : SimState) :
    (confirmPhase P day dec st).backorders = st.backorders := by
  unfold confirmPhase
  by_cases h : (propose_batch P.weight_map st.pending).1 <;> cases dec <;> simp [h, place_order_backorders]

theorem confirmPhase_cum (P : Params) (day : ℕ) (dec : Bool) (st : SimState) :
    (confirmPhase P day dec st).cum_demand = st.cum_demand ∧
    (confirmPhase P day dec st).cum_shipped = st.cum_shipped := by
  unfold confirmPhase
  by_cases h : (propose_batch P.weight_map st.pending).1 <;> cases dec <;> simp [h, place_order]

/-! ### Inventory position and order sizing -/

theorem inventory_position_eq (st : SimState) (s : SKU) :
    inventory_position st s = max 0 (st.on_hand s + st.on_order s - st.backorders s) := by
  unfold inventory_position
  exact as_int_intCast _

theorem as_int_eq_of {x : ℚ} {n : ℤ} (h3 : 0 ≤ n) (h1 : (n : ℚ) ≤ x + eps)
    (h2 : x + eps < (n : ℚ) + 1) : as_int x = n := by
  unfold as_int
  have h : ⌊x + eps⌋ = n := Int.floor_eq_iff.mpr ⟨h1, by exact_mod_cast h2⟩
  rw [h]
  exact max_eq_right h3

theorem order_need_eq (P : Params) (st : SimState) (s : SKU) :
    order_need_qty P st s =
      max (as_int (P.eoq_map s))
        (max 0 (st.backorders s) +
          as_int (max 0 (P.mu_map s * 45 + P.ss_map s -
            ((max 0 (st.on_hand s + st.on_order s - st.backorders s) : ℤ) : ℚ)))) := by
  unfold order_need_qty
  rw [inventory_position_eq, as_int_intCast]

theorem order_need_ge_eoq (P : Params) (st : SimState) (s : SKU) :
    as_int (P.eoq_map s) ≤ order_need_qty P st s := by
  unfold order_need_qty
  exact le_max_left _ _

/-- The spec's reading of the derived inventory position: the raw signed
difference `on_hand + on_order − backorder`, with no clamping. -/
def inventory_position_raw (st : SimState) (s : SKU) : ℤ :=
  st.on_hand s + st.on_order s - st.backorders s

/-- The spec's reading of the need-quantity formula:
`max(EOQ, backorder + floor(max(0, mu*45 + safety_stock − inventory_position)))`
with the raw signed inventory position of the data model. -/
def order_need_qty_claimed (P : Params) (st : SimState) (s : SKU) : ℤ :=
  max (as_int (P.eoq_map s))
    (st.backorders s +
      ⌊max 0 (P.mu_map s * 45 + P.ss_map s - ((inventory_position_raw st s : ℤ) : ℚ))⌋)

/-- A ledger state with five backordered units of SKU `A` and nothing else. -/
def stC1 : SimState :=
  { on_hand := fun _ => 0
    on_order := fun _ => 0
    backorders := fun _ => 5
    pending := []
    transit := []
    cum_demand := 0
    cum_shipped := 0 }

/-- Policy maps with `mu = 0`, `safety_stock = 10`, `reorder_point = 0`,
`EOQ = 0`, no weights, no demand. -/
def P3 : Params :=
  { skus := ["A"]
    mu_map := fun _ => 0
    ss_map := fun _ => 10
    rop_map := fun _ => 0
    eoq_map := fun _ => 0
    weight_map := fun _ => none
    demand := fun _ _ => 0 }

theorem as_int_q0 : as_int (0 : ℚ) = 0 :=
  as_int_eq_of le_rfl (by norm_num [eps]) (by norm_num [eps])

theorem as_int_q5 : as_int (5 : ℚ) = 5 :=
  as_int_eq_of (by norm_num) (by norm_num [eps]) (by norm_num [eps])

theorem as_int_q10 : as_int (10 : ℚ) = 10 :=
  as_int_eq_of (by norm_num) (by norm_num [eps]) (by norm_num [eps])

/-- C1 counterexample: with `on_hand = on_order = 0` and `backorder = 5`,
the code's `inventory_position` returns `0`, not the raw signed difference
`−5` the claim asserts. -/
theorem C1_counterexample :
    inventory_position stC1 "A" = 0 ∧ inventory_position_raw stC1 "A" = -5 := by
  constructor
  · rw [inventory_position_eq]
    decide
  · decide

/-- C1 (amended): `inventory_position` returns the zero-clamped value
`max(0, on_hand + on_order − backorder)`; in particular it returns `0`, not
a negative number, whenever backorders exceed `on_hand + on_order`. -/
theorem C1_inventory_position_clamped (st : SimState) (s : SKU) :
    inventory_position st s = max 0 (st.on_hand s + st.on_order s - st.backorders s) ∧
    (st.on_hand s + st.on_order s < st.backorders s → inventory_position st s = 0) := by
  refine ⟨inventory_position_eq st s, fun h => ?_⟩
  rw [inventory_position_eq]
  omega

/-- C1 witness: the amended theorem applied at the concrete ledger state. -/
theorem C1_witness :
    inventory_position stC1 "A" =
      max 0 (stC1.on_hand "A" + stC1.on_order "A" - stC1.backorders "A") ∧
    inventory_position stC1 "A" = 0 :=
  ⟨(C1_inventory_position_clamped stC1 "A").1,
   (C1_inventory_position_clamped stC1 "A").2 (by decide)⟩

/-- C3 counterexample: at the same ledger state, the code computes a need of
`15` (gap measured against the clamped inventory position `0`), while the
claim's formula with the raw signed position `−5` gives `20`. -/
theorem C3_counterexample :
    order_need_qty P3 stC1 "A" = 15 ∧ order_need_qty_claimed P3 stC1 "A" = 20 := by
  constructor
  · rw [order_need_eq]
    have h1 : P3.eoq_map "A" = 0 := rfl
    have h2 : P3.mu_map "A" = 0 := rfl
    have h3 : P3.ss_map "A" = 10 := rfl
    rw [h1, h2, h3, as_int_q0]
    norm_num [stC1]
    rw [as_int_q10]
    norm_num
  · unfold order_need_qty_claimed inventory_position_raw
    have h1 : P3.eoq_map "A" = 0 := rfl
    have h2 : P3.mu_map "A" = 0 := rfl
    have h3 : P3.ss_map "A" = 10 := rfl
    rw [h1, h2, h3, as_int_q0]
    norm_num [stC1]

/-- C3 (amended): the requested order quantity equals
`max(as_int(EOQ), max(0, backorder) + as_int(max(0, mu*45 + safety_stock −
max(0, on_hand + on_order − backorder))))` — the gap is measured against the
zero-clamped inventory position, with the source's tolerance-carrying floor
`as_int` — and the result is never below the `as_int`-floored EOQ lot. -/
theorem C3_order_need_formula (P : Params) (st : SimState) (s : SKU) :
    order_need_qty P st s =
      max (as_int (P.eoq_map s))
        (max 0 (st.backorders s) +
          as_int (max 0 (P.mu_map s * 45 + P.ss_map s -
            ((max 0 (st.on_hand s + st.on_order s - st.backorders s) : ℤ) : ℚ)))) ∧
    as_int (P.eoq_map s) ≤ order_need_qty P st s :=
  ⟨order_need_eq P st s, order_need_ge_eoq P st s⟩

/-! ### Piece weight positivity (C7) -/

theorem parseNum_nonneg (l : List Char) (v : ℚ) (rest : List Char)
    (h : parseNum l = some (v, rest)) : 0 ≤ v := by
  unfold parseNum at h
  dsimp only at h
  split at h
  · exact absurd h (by simp)
  · split at h
    · split at h
      · simp only [Option.some.injEq, Prod.mk.injEq] at h
        rcases h with ⟨h1, -⟩
        rw [← h1]
        positivity
      · simp only [Option.some.injEq, Prod.mk.injEq] at h
        rcases h with ⟨h1, -⟩
        rw [← h1]
        positivity
    · simp only [Option.some.injEq, Prod.mk.injEq] at h
      rcases h with ⟨h1, -⟩
      rw [← h1]
      positivity

theorem matchMMAt_nonneg (l : List Char) (v : ℚ) (h : matchMMAt l = some v) : 0 ≤ v := by
  unfold matchMMAt at h
  split at h
  · exact absurd h (by simp)
  · rename_i v' rest heq
    split at h
    · simp only [Option.some.injEq] at h
      rw [← h]
      exact parseNum_nonneg l v' rest heq
    · exact absurd h (by simp)

theorem searchMM_nonneg (l : List Char) (v : ℚ) (h : searchMM l = some v) : 0 ≤ v := by
  induction l with
  | nil => exact absurd h (by simp [searchMM])
  | cons c cs ih =>
    unfold searchMM at h
    split at h
    · rename_i v' heq
      simp only [Option.some.injEq] at h
      rw [← h]
      exact matchMMAt_nonneg _ v' heq
    · exact ih h

theorem fallback_weight_nonneg (sku : SKU) : 0 ≤ fallback_weight sku := by
  unfold fallback_weight
  split
  · rename_i t heq
    have ht := searchMM_nonneg _ t heq
    positivity
  · norm_num

theorem piece_weight_kg_nonneg (sku : SKU) (wm : SKU → Option ℚ) :
    0 ≤ piece_weight_kg sku wm := by
  unfold piece_weight_kg
  split
  · rename_i w _
    split
    · rename_i hw
      exact le_of_lt hw
    · exact fallback_weight_nonneg sku
  · exact fallback_weight_nonneg sku

/-- The empty weight map. -/
def wm0 : SKU → Option ℚ := fun _ => none

/-- C7 counterexample: the SKU label `0MM` has no mapped weight and its
thickness token parses to `0`, so `piece_weight_kg` returns `0 * 2.24 = 0`,
refuting strict positivity for every label. -/
theorem C7_counterexample : piece_weight_kg "0MM" wm0 = 0 := by
  have h : searchMM ("0MM".data.map Char.toUpper) = some ((0 : ℕ) : ℚ) := rfl
  unfold piece_weight_kg wm0 fallback_weight
  rw [h]
  norm_num

/-- C7 (amended): the per-piece weight is always nonnegative, and whenever it
is zero (possible only for an unmapped label whose thickness token is zero)
the division site in batch packing is protected by the `unit_kg > 0` guard,
which yields an admitted quantity of `0` instead of dividing. -/
theorem C7_piece_weight_guarded (sku : SKU) (wm : SKU → Option ℚ) (remaining_kg : ℚ) :
    0 ≤ piece_weight_kg sku wm ∧
    (piece_weight_kg sku wm = 0 → overflow_allowed wm sku remaining_kg = 0) := by
  refine ⟨piece_weight_kg_nonneg sku wm, fun h => ?_⟩
  unfold overflow_allowed
  rw [h]
  norm_num

/-- C7 witness: the amended theorem applied at the zero-weight label. -/
theorem C7_witness :
    0 ≤ piece_weight_kg "0MM" wm0 ∧ overflow_allowed wm0 "0MM" 12000 = 0 :=
  ⟨(C7_piece_weight_guarded "0MM" wm0 12000).1,
   (C7_piece_weight_guarded "0MM" wm0 12000).2 C7_counterexample⟩

/-! ### Batch weight bounds (C2) -/

theorem qty_to_tons_int (sku : SKU) (q : ℤ) (wm : SKU → Option ℚ) :
    qty_to_tons sku q wm = piece_weight_kg sku wm * ((max 0 q : ℤ) : ℚ) / 1000 := by
  unfold qty_to_tons
  rw [as_int_intCast]

/-- The truncated whole-unit overflow quantity never carries more weight
than the remaining capacity plus one `eps` of the unit weight. -/
theorem overflow_allowed_weight_le (wm : SKU → Option ℚ) (s : SKU) (r : ℚ)
    (hr : 0 ≤ r) :
    ((overflow_allowed wm s r : ℤ) : ℚ) * piece_weight_kg s wm ≤
      r + eps * piece_weight_kg s wm := by
  unfold overflow_allowed
  dsimp only
  split
  · rename_i hu
    have hdiv : (0 : ℚ) ≤ r / piece_weight_kg s wm := div_nonneg hr (le_of_lt hu)
    have hle : ((as_int (r / piece_weight_kg s wm) : ℤ) : ℚ) ≤ r / piece_weight_kg s wm + eps :=
      as_int_cast_le _ hdiv
    calc ((as_int (r / piece_weight_kg s wm) : ℤ) : ℚ) * piece_weight_kg s wm
        ≤ (r / piece_weight_kg s wm + eps) * piece_weight_kg s wm := by
          exact mul_le_mul_of_nonneg_right hle (le_of_lt hu)
      _ = r + eps * piece_weight_kg s wm := by
          field_simp
  · rename_i hu
    push_neg at hu
    have hpw : 0 ≤ piece_weight_kg s wm := piece_weight_kg_nonneg s wm
    have heps : 0 < eps := eps_pos
    simp only [Int.cast_zero, zero_mul]
    nlinarith

theorem packLoop_le (wm : SKU → Option ℚ) (W : ℚ) (hW : 0 ≤ W) :
    ∀ (items chosen : List (SKU × ℤ)) (total : ℚ),
      total ≤ TRUCK_MAX_TONS →
      (∀ p ∈ items, piece_weight_kg p.1 wm ≤ W) →
      (packLoop wm items chosen total).2 ≤ TRUCK_MAX_TONS + eps * W / 1000 := by
  intro items
  induction items with
  | nil =>
    intro chosen total htot _
    have : 0 ≤ eps * W / 1000 := div_nonneg (mul_nonneg (le_of_lt eps_pos) hW) (by norm_num)
    simpa [packLoop] using le_trans htot (by linarith)
  | cons p rest ih =>
    intro chosen total htot hub
    rcases p with ⟨s, q0⟩
    have hubr : ∀ p ∈ rest, piece_weight_kg p.1 wm ≤ W :=
      fun p hp => hub p (List.mem_cons_of_mem _ hp)
    have hShead : piece_weight_kg s wm ≤ W := hub (s, q0) (List.mem_cons_self _ _)
    have hepsW : 0 ≤ eps * W / 1000 := div_nonneg (mul_nonneg (le_of_lt eps_pos) hW) (by norm_num)
    simp only [packLoop]
    split
    · exact ih chosen total htot hubr
    · split
      · rename_i hfit
        exact ih _ _ hfit hubr
      · rename_i hq hfit
        split
        · rename_i hall
          have hpw : 0 < piece_weight_kg s wm := by
            by_contra hc
            push_neg at hc
            have : overflow_allowed wm s (max 0 (TRUCK_MAX_TONS * 1000 - total * 1000)) = 0 := by
              unfold overflow_allowed
              dsimp only
              rw [if_neg (not_lt.mpr hc)]
            rw [this] at hall
            exact absurd hall (by norm_num)
          have hr0 : (0 : ℚ) ≤ max 0 (TRUCK_MAX_TONS * 1000 - total * 1000) := le_max_left _ _
          have hw := overflow_allowed_weight_le wm s (max 0 (TRUCK_MAX_TONS * 1000 - total * 1000)) hr0
          have hrem : max 0 (TRUCK_MAX_TONS * 1000 - total * 1000) = TRUCK_MAX_TONS * 1000 - total * 1000 := by
            apply max_eq_right
            have h12 : (0:ℚ) < 1000 := by norm_num
            nlinarith [htot]
          have hq2t : qty_to_tons s (overflow_allowed wm s (max 0 (TRUCK_MAX_TONS * 1000 - total * 1000))) wm =
              piece_weight_kg s wm * ((max 0 (overflow_allowed wm s (max 0 (TRUCK_MAX_TONS * 1000 - total * 1000))) : ℤ) : ℚ) / 1000 :=
            qty_to_tons_int _ _ _
          have hmaxa : max 0 (overflow_allowed wm s (max 0 (TRUCK_MAX_TONS * 1000 - total * 1000))) =
              overflow_allowed wm s (max 0 (TRUCK_MAX_TONS * 1000 - total * 1000)) :=
            max_eq_right (le_of_lt hall)
          rw [hmaxa] at hq2t
          dsimp only
          rw [hq2t]
          have heps : 0 < eps := eps_pos
          have hWea : eps * piece_weight_kg s wm ≤ eps * W :=
            mul_le_mul_of_nonneg_left hShead (le_of_lt heps)
          have hw2 : piece_weight_kg s wm *
              ((overflow_allowed wm s (max 0 (TRUCK_MAX_TONS * 1000 - total * 1000)) : ℤ) : ℚ) ≤
              TRUCK_MAX_TONS * 1000 - total * 1000 + eps * W := by
            calc piece_weight_kg s wm *
                ((overflow_allowed wm s (max 0 (TRUCK_MAX_TONS * 1000 - total * 1000)) : ℤ) : ℚ)
                = ((overflow_allowed wm s (max 0 (TRUCK_MAX_TONS * 1000 - total * 1000)) : ℤ) : ℚ) *
                  piece_weight_kg s wm := mul_comm _ _
              _ ≤ max 0 (TRUCK_MAX_TONS * 1000 - total * 1000) + eps * piece_weight_kg s wm := hw
              _ = TRUCK_MAX_TONS * 1000 - total * 1000 + eps * piece_weight_kg s wm := by rw [hrem]
              _ ≤ TRUCK_MAX_TONS * 1000 - total * 1000 + eps * W := by linarith [hWea]
          have hfin : total + (TRUCK_MAX_TONS * 1000 - total * 1000 + eps * W) / 1000 =
              TRUCK_MAX_TONS + eps * W / 1000 := by
            unfold TRUCK_MAX_TONS
            ring
          calc total + piece_weight_kg s wm *
              ((overflow_allowed wm s (max 0 (TRUCK_MAX_TONS * 1000 - total * 1000)) : ℤ) : ℚ) / 1000
              ≤ total + (TRUCK_MAX_TONS * 1000 - total * 1000 + eps * W) / 1000 :=
                add_le_add_left ((div_le_div_iff_of_pos_right (by norm_num : (0:ℚ) < 1000)).mpr hw2) total
            _ = TRUCK_MAX_TONS + eps * W / 1000 := hfin
        · dsimp only
          linarith

theorem mem_insSorted (f : SKU × ℤ → ℚ) (x p : SKU × ℤ) (l : List (SKU × ℤ)) :
    p ∈ insSorted f x l → p = x ∨ p ∈ l := by
  induction l with
  | nil =>
    intro h
    simp only [insSorted, List.mem_singleton] at h
    exact Or.inl h
  | cons y ys ih =>
    intro h
    unfold insSorted at h
    split at h
    · rcases List.mem_cons.mp h with h1 | h2
      · exact Or.inl h1
      · exact Or.inr h2
    · rcases List.mem_cons.mp h with h1 | h2
      · exact Or.inr (h1 ▸ List.mem_cons_self y ys)
      · rcases ih h2 with h3 | h4
        · exact Or.inl h3
        · exact Or.inr (List.mem_cons_of_mem y h4)

theorem mem_sortByKey (f : SKU × ℤ → ℚ) (l : List (SKU × ℤ)) (p : SKU × ℤ) :
    p ∈ sortByKey f l → p ∈ l := by
  induction l with
  | nil => intro h; exact absurd h (by simp [sortByKey])
  | cons x xs ih =>
    intro h
    unfold sortByKey at h
    rw [List.foldr_cons] at h
    rcases mem_insSorted f x p _ h with h1 | h2
    · exact h1 ▸ List.mem_cons_self x xs
    · exact List.mem_cons_of_mem x (ih h2)

/-- C2 (amended): a confirmed batch always weighs at least
`TRUCK_MIN_TONS = 10`, and at most `TRUCK_MAX_TONS = 12` plus the slack
`eps·W/1000` tons that the `1e-9` tolerance inside `as_int` can add when
the overflowing SKU's quantity is truncated (`W` bounds the unit weights
of the pending SKUs); and when no batch can be made (`can_make = false`)
no shipment is proposed at all. -/
theorem C2_batch_weight_bounds (wm : SKU → Option ℚ) (pend : List (SKU × ℤ)) (W : ℚ)
    (hW : 0 ≤ W) (hub : ∀ p ∈ pend, piece_weight_kg p.1 wm ≤ W) :
    ((propose_batch wm pend).1 = true →
      TRUCK_MIN_TONS ≤ (propose_batch wm pend).2.2 ∧
      (propose_batch wm pend).2.2 ≤ TRUCK_MAX_TONS + eps * W / 1000) ∧
    ((propose_batch wm pend).1 = false → (propose_batch wm pend).2.1 = []) := by
  unfold propose_batch
  split
  · exact ⟨fun h => absurd h (by simp), fun _ => rfl⟩
  · dsimp only
    split
    · exact ⟨fun h => absurd h (by simp), fun _ => rfl⟩
    · have hubs : ∀ p ∈ sortByKey (fun p => -qty_to_tons p.1 p.2 wm) pend,
          piece_weight_kg p.1 wm ≤ W :=
        fun p hp => hub p (mem_sortByKey _ _ p hp)
      have hbound := packLoop_le wm W hW
        (sortByKey (fun p => -qty_to_tons p.1 p.2 wm) pend) [] 0
        (by norm_num [TRUCK_MAX_TONS]) hubs
      split
      · rename_i hmin
        exact ⟨fun _ => ⟨hmin, hbound⟩, fun h => absurd h (by simp)⟩
      · exact ⟨fun h => absurd h (by simp), fun _ => rfl⟩

/-- A one-ton-per-piece weight map. -/
def wmW : SKU → Option ℚ := fun _ => some 1000

/-- An eleven-piece pending batch of SKU `A`: exactly an 11-ton truck. -/
def pendW : List (SKU × ℤ) := [("A", 11)]

theorem pw_wmW : piece_weight_kg "A" wmW = 1000 := by
  unfold piece_weight_kg wmW
  norm_num

/-- C2 witness: the amended bound applied to a concrete 11-ton batch. -/
theorem C2_witness :
    ((propose_batch wmW pendW).1 = true →
      TRUCK_MIN_TONS ≤ (propose_batch wmW pendW).2.2 ∧
      (propose_batch wmW pendW).2.2 ≤ TRUCK_MAX_TONS + eps * 1000 / 1000) ∧
    ((propose_batch wmW pendW).1 = false → (propose_batch wmW pendW).2.1 = []) :=
  C2_batch_weight_bounds wmW pendW 1000 (by norm_num)
    (by
      intro p hp
      rcases List.mem_singleton.mp hp with rfl
      rw [pw_wmW])

/-- A unit weight of `24000000000000/3999999999 ≈ 6000.0000015` kg: twelve
tonnes divided by a hair under two pieces. -/
def uC2 : ℚ := 24000000000000 / 3999999999

/-- Weight map carrying `uC2` for every SKU. -/
def wmC2 : SKU → Option ℚ := fun _ => some uC2

/-- A pending batch of three pieces of SKU `A` (≈ 18 tons). -/
def pendC2 : List (SKU × ℤ) := [("A", 3)]

theorem uC2_pos : 0 < uC2 := by norm_num [uC2]

theorem pw_wmC2 : piece_weight_kg "A" wmC2 = uC2 := by
  unfold piece_weight_kg wmC2
  dsimp only
  rw [if_pos uC2_pos]

theorem qty3_wmC2 : qty_to_tons "A" 3 wmC2 = 3 * uC2 / 1000 := by
  rw [qty_to_tons_int, pw_wmC2, show (max 0 3 : ℤ) = 3 from by decide]
  push_cast
  ring

theorem qty2_wmC2 : qty_to_tons "A" 2 wmC2 = 2 * uC2 / 1000 := by
  rw [qty_to_tons_int, pw_wmC2, show (max 0 2 : ℤ) = 2 from by decide]
  push_cast
  ring

theorem allow_wmC2 :
    overflow_allowed wmC2 "A" (max 0 (TRUCK_MAX_TONS * 1000 - 0 * 1000)) = 2 := by
  unfold overflow_allowed
  dsimp only
  rw [pw_wmC2, if_pos uC2_pos,
    show max (0:ℚ) (TRUCK_MAX_TONS * 1000 - 0 * 1000) = 12000 from by
      norm_num [TRUCK_MAX_TONS],
    show (12000 : ℚ) / uC2 = 3999999999 / 2000000000 from by norm_num [uC2]]
  exact as_int_eq_of (by norm_num) (by norm_num [eps]) (by norm_num [eps])

theorem packLoop_C2 :
    packLoop wmC2 [("A", 3)] [] 0 = ([("A", 2)], 0 + 2 * uC2 / 1000) := by
  simp only [packLoop]
  rw [if_neg (show ¬ ((max 0 3 : ℤ) ≤ 0) from by decide)]
  rw [show (max 0 3 : ℤ) = 3 from by decide, qty3_wmC2]
  rw [if_neg (show ¬ ((0:ℚ) + 3 * uC2 / 1000 ≤ TRUCK_MAX_TONS) from by
    norm_num [uC2, TRUCK_MAX_TONS])]
  rw [allow_wmC2]
  rw [if_pos (show (0:ℤ) < 2 from by decide), qty2_wmC2]
  simp

theorem propose_batch_C2 :
    propose_batch wmC2 pendC2 = (true, [("A", 2)], 0 + 2 * uC2 / 1000) := by
  unfold propose_batch
  rw [show pendC2.isEmpty = false from rfl]
  simp only [Bool.false_eq_true, if_false]
  rw [show sortByKey (fun p => -qty_to_tons p.1 p.2 wmC2) pendC2 = [("A", 3)] from rfl]
  rw [show batch_tons wmC2 pendC2 = 3 * uC2 / 1000 from by
    unfold batch_tons pendC2
    rw [List.map_cons, List.map_nil, List.sum_cons, List.sum_nil, qty3_wmC2]
    ring]
  rw [if_neg (show ¬ ((3 : ℚ) * uC2 / 1000 < TRUCK_MIN_TONS) from by
    norm_num [uC2, TRUCK_MIN_TONS])]
  rw [packLoop_C2]
  rw [if_pos (show TRUCK_MIN_TONS ≤ (0:ℚ) + 2 * uC2 / 1000 from by
    norm_num [uC2, TRUCK_MIN_TONS])]

/-- C2 counterexample: with a unit weight a shade under 6 tonnes, the
`1e-9` tolerance inside `as_int` lets the overflow truncation admit two
pieces instead of one, and the confirmed batch weighs strictly more than
`TRUCK_MAX_TONS = 12` (by about 3 millionths of a ton), refuting the
inclusive upper bound as claimed. -/
theorem C2_counterexample :
    (propose_batch wmC2 pendC2).1 = true ∧
    TRUCK_MAX_TONS < (propose_batch wmC2 pendC2).2.2 := by
  rw [propose_batch_C2]
  refine ⟨rfl, ?_⟩
  norm_num [TRUCK_MAX_TONS, uC2]

/-! ### Conservation (C4) -/

theorem shipSku_oh_eq (sold oh bo : ℤ) :
    (shipSku sold oh bo).1 = oh - (shipSku sold oh bo).2.2 := by
  unfold shipSku
  split_ifs <;> dsimp <;> omega

theorem shipSku_over {sold oh : ℤ} (bo : ℤ) (h0 : 0 ≤ oh) (h : oh < sold) :
    (shipSku sold oh bo).2.1 = bo + (sold - (shipSku sold oh bo).2.2) := by
  unfold shipSku
  rw [if_pos (lt_of_le_of_lt h0 h), if_neg (not_le.mpr h)]

theorem shipSku_under {sold oh : ℤ} (bo : ℤ) (h : sold ≤ oh) :
    (shipSku sold oh bo).2.1 = bo := by
  unfold shipSku
  split_ifs with h1
  · rfl
  · rfl

theorem skuStep_self_oh (P : Params) (day : ℕ) (acc : SimState × ℤ × ℤ) (s : SKU) :
    (skuStep P day acc s).1.on_hand s =
      (shipSku (as_int (P.demand day s)) (acc.1.on_hand s) (acc.1.backorders s)).1 := by
  unfold skuStep
  exact Function.update_same _ _ _

theorem skuStep_self_bo (P : Params) (day : ℕ) (acc : SimState × ℤ × ℤ) (s : SKU) :
    (skuStep P day acc s).1.backorders s =
      (shipSku (as_int (P.demand day s)) (acc.1.on_hand s) (acc.1.backorders s)).2.1 := by
  unfold skuStep
  exact Function.update_same _ _ _

theorem demandPhase_at (P : Params) (day : ℕ) (st : SimState) (s : SKU)
    (hnd : P.skus.Nodup) (hmem : s ∈ P.skus) :
    (demandPhase P day st).1.on_hand s =
      (shipSku (as_int (P.demand day s)) (st.on_hand s) (st.backorders s)).1 ∧
    (demandPhase P day st).1.backorders s =
      (shipSku (as_int (P.demand day s)) (st.on_hand s) (st.backorders s)).2.1 := by
  rcases List.append_of_mem hmem with ⟨l₁, l₂, heq⟩
  have hnd' : (l₁ ++ s :: l₂).Nodup := heq ▸ hnd
  rcases List.nodup_append.mp hnd' with ⟨-, hnd₂, hdisj⟩
  have hs₁ : ¬ s ∈ l₁ := fun h => hdisj h (List.mem_cons_self s l₂)
  have hs₂ : ¬ s ∈ l₂ := (List.nodup_cons.mp hnd₂).1
  unfold demandPhase
  rw [heq, List.foldl_append, List.foldl_cons]
  rcases foldl_skuStep_on_hand_not_mem P day l₂
    (skuStep P day (List.foldl (skuStep P day) (st, 0, 0) l₁) s) s hs₂ with ⟨h2oh, h2bo⟩
  rcases foldl_skuStep_on_hand_not_mem P day l₁ (st, 0, 0) s hs₁ with ⟨h1oh, h1bo⟩
  rw [h2oh, h2bo, skuStep_self_oh, skuStep_self_bo, h1oh, h1bo]
  exact ⟨rfl, rfl⟩

theorem dayStep_on_hand (P : Params) (dec : Bool) (day : ℕ) (st : SimState) (s : SKU) :
    (dayStep P dec day st).on_hand s =
      (demandPhase P day (arrivalsPhase day st)).1.on_hand s := by
  unfold dayStep
  exact congrFun (confirmPhase_on_hand P day dec _) s

theorem dayStep_backorders (P : Params) (dec : Bool) (day : ℕ) (st : SimState) (s : SKU) :
    (dayStep P dec day st).backorders s =
      (demandPhase P day (arrivalsPhase day st)).1.backorders s := by
  unfold dayStep
  exact congrFun (confirmPhase_backorders P day dec _) s

/-- C4: for every SKU, the day step conserves stock —
`on_hand_after = on_hand_before + arrivals_today − shipped_today` — and the
backorder column grows by exactly the unshipped demand when today's demand
exceeds the stock available after arrivals, and is untouched otherwise. -/
theorem C4_conservation (P : Params) (dec : Bool) (day : ℕ) (st : SimState) (s : SKU)
    (hnd : P.skus.Nodup) (hmem : s ∈ P.skus) (hoh : 0 ≤ st.on_hand s) :
    (dayStep P dec day st).on_hand s =
      st.on_hand s + arrivalsQty st day s -
        (shipSku (as_int (P.demand day s)) ((arrivalsPhase day st).on_hand s)
          ((arrivalsPhase day st).backorders s)).2.2 ∧
    ((arrivalsPhase day st).on_hand s < as_int (P.demand day s) →
      (dayStep P dec day st).backorders s =
        st.backorders s + (as_int (P.demand day s) -
          (shipSku (as_int (P.demand day s)) ((arrivalsPhase day st).on_hand s)
            ((arrivalsPhase day st).backorders s)).2.2)) ∧
    (as_int (P.demand day s) ≤ (arrivalsPhase day st).on_hand s →
      (dayStep P dec day st).backorders s = st.backorders s) := by
  have hbA : (arrivalsPhase day st).backorders s = st.backorders s :=
    congrFun (arrivalsPhase_backorders day st) s
  have hohA : (arrivalsPhase day st).on_hand s = st.on_hand s + arrivalsQty st day s :=
    arrivalsPhase_on_hand day st s
  have hohA0 : 0 ≤ (arrivalsPhase day st).on_hand s := by
    rw [hohA]
    have := transitSum_nonneg (st.transit.filter (fun po => po.eta == day)) s
    unfold arrivalsQty
    omega
  rcases demandPhase_at P day (arrivalsPhase day st) s hnd hmem with ⟨hdoh, hdbo⟩
  refine ⟨?_, fun hover => ?_, fun hunder => ?_⟩
  · rw [dayStep_on_hand, hdoh, shipSku_oh_eq, hohA]
  · rw [dayStep_backorders, hdbo, shipSku_over _ hohA0 hover, hbA]
  · rw [dayStep_backorders, hdbo, shipSku_under _ hunder, hbA]

/-! ### Ledger invariants (C5, C6) -/

/-- The reachable-state invariant: non-negative ledger columns, `on_order`
in exact correspondence with the in-transit quantities, and cumulative
shipped bounded by cumulative demand. -/
def SimInv (st : SimState) : Prop :=
  (∀ s, 0 ≤ st.on_hand s) ∧ (∀ s, 0 ≤ st.backorders s) ∧
  (∀ s, st.on_order s = transitSum st.transit s) ∧
  0 ≤ st.cum_shipped ∧ st.cum_shipped ≤ st.cum_demand

theorem Inv_initState (inv0 : SKU → ℚ) : SimInv (initState inv0) := by
  refine ⟨fun s => as_int_nonneg _, fun _ => le_refl 0, fun _ => rfl, le_refl 0, le_refl 0⟩

theorem Inv_arrivalsPhase (day : ℕ) (st : SimState) (h : SimInv st) :
    SimInv (arrivalsPhase day st) := by
  rcases h with ⟨hoh, hbo, hoo, hcs, hcd⟩
  refine ⟨fun s => ?_, fun s => ?_, fun s => ?_, ?_, ?_⟩
  · rw [arrivalsPhase_on_hand]
    have := transitSum_nonneg (st.transit.filter (fun po => po.eta == day)) s
    unfold arrivalsQty
    have h1 := hoh s
    omega
  · rw [congrFun (arrivalsPhase_backorders day st) s]
    exact hbo s
  · rw [arrivalsPhase_on_order, arrivalsPhase_transit, hoo s,
      transitSum_filter_split st.transit day s]
    unfold arrivalsQty
    ring
  · rw [(arrivalsPhase_cum day st).2]
    exact hcs
  · rw [(arrivalsPhase_cum day st).1, (arrivalsPhase_cum day st).2]
    exact hcd

theorem shipSku_res_nonneg {sold oh bo : ℤ} (hoh : 0 ≤ oh) (hbo : 0 ≤ bo) :
    0 ≤ (shipSku sold oh bo).1 ∧ 0 ≤ (shipSku sold oh bo).2.1 ∧
    0 ≤ (shipSku sold oh bo).2.2 ∧
    (shipSku sold oh bo).2.2 ≤ (if 0 < sold then sold else 0) := by
  unfold shipSku
  split_ifs <;> dsimp <;> omega

/-- The state-only part of the invariant (the cumulative counters live in
the fold accumulator during the demand phase). -/
def LedgerInv (st : SimState) : Prop :=
  (∀ s, 0 ≤ st.on_hand s) ∧ (∀ s, 0 ≤ st.backorders s) ∧
  (∀ s, st.on_order s = transitSum st.transit s)

theorem skuStep_LedgerInv (P : Params) (day : ℕ) (acc : SimState × ℤ × ℤ) (x : SKU)
    (h : LedgerInv acc.1) :
    LedgerInv (skuStep P day acc x).1 ∧
    0 ≤ (skuStep P day acc x).2.2 - acc.2.2 ∧
    (skuStep P day acc x).2.2 - acc.2.2 ≤ (skuStep P day acc x).2.1 - acc.2.1 := by
  rcases h with ⟨hoh, hbo, hoo⟩
  have hsold : 0 ≤ as_int (P.demand day x) := as_int_nonneg _
  rcases @shipSku_res_nonneg (as_int (P.demand day x)) _ _ (hoh x) (hbo x) with
    ⟨h1, h2, h3, h4⟩
  refine ⟨⟨fun s => ?_, fun s => ?_, fun s => hoo s⟩, ?_, ?_⟩
  · by_cases hxs : x = s
    · subst hxs
      rw [skuStep_self_oh]
      exact h1
    · rw [skuStep_on_hand_ne P day acc x s hxs]
      exact hoh s
  · by_cases hxs : x = s
    · subst hxs
      rw [skuStep_self_bo]
      exact h2
    · rw [skuStep_backorders_ne P day acc x s hxs]
      exact hbo s
  · unfold skuStep
    dsimp only
    omega
  · unfold skuStep
    dsimp only
    split_ifs with hs
    · omega
    · omega

theorem foldl_skuStep_LedgerInv (P : Params) (day : ℕ) (l : List SKU) :
    ∀ acc : SimState × ℤ × ℤ, LedgerInv acc.1 →
      LedgerInv (l.foldl (skuStep P day) acc).1 ∧
      (l.foldl (skuStep P day) acc).2.2 - (l.foldl (skuStep P day) acc).2.1 ≤ acc.2.2 - acc.2.1 ∧
      acc.2.2 ≤ (l.foldl (skuStep P day) acc).2.2 := by
  induction l with
  | nil => intro acc h; exact ⟨h, le_refl _, le_refl _⟩
  | cons x t ih =>
    intro acc h
    simp only [List.foldl_cons]
    rcases skuStep_LedgerInv P day acc x h with ⟨h1, h2, h3⟩
    rcases ih (skuStep P day acc x) h1 with ⟨h4, h5, h6⟩
    exact ⟨h4, by omega, by omega⟩

theorem demandPhase_Inv (P : Params) (day : ℕ) (st : SimState) (h : SimInv st) :
    SimInv { (demandPhase P day st).1 with
            cum_demand := (demandPhase P day st).1.cum_demand + (demandPhase P day st).2.1,
            cum_shipped := (demandPhase P day st).1.cum_shipped + (demandPhase P day st).2.2 } ∧
    LedgerInv (demandPhase P day st).1 := by
  rcases h with ⟨hoh, hbo, hoo, hcs, hcd⟩
  have hstart : LedgerInv st := ⟨hoh, hbo, hoo⟩
  rcases foldl_skuStep_LedgerInv P day P.skus (st, 0, 0) hstart with ⟨h1, h2, h3⟩
  rcases h1 with ⟨g1, g2, g3⟩
  have hcum := foldl_skuStep_cum P day P.skus (st, 0, 0)
  have htr := foldl_skuStep_transit P day P.skus (st, 0, 0)
  refine ⟨⟨fun s => g1 s, fun s => g2 s, fun s => ?_, ?_, ?_⟩, ⟨g1, g2, g3⟩⟩
  · show (demandPhase P day st).1.on_order s = transitSum (demandPhase P day st).1.transit s
    unfold demandPhase
    rw [congrFun (foldl_skuStep_on_order P day P.skus (st, 0, 0)) s, htr]
    exact hoo s
  · show 0 ≤ (demandPhase P day st).1.cum_shipped + (demandPhase P day st).2.2
    unfold demandPhase at hcum ⊢
    rw [hcum.2]
    dsimp only at h3 ⊢
    omega
  · show (demandPhase P day st).1.cum_shipped + (demandPhase P day st).2.2 ≤
      (demandPhase P day st).1.cum_demand + (demandPhase P day st).2.1
    unfold demandPhase at hcum ⊢
    rw [hcum.1, hcum.2]
    dsimp only at h2 h3 ⊢
    omega

theorem place_order_SimInv (day : ℕ) (prop : List (SKU × ℤ)) (st : SimState)
    (h : SimInv st) : SimInv (place_order day prop st) := by
  rcases h with ⟨hoh, hbo, hoo, hcs, hcd⟩
  refine ⟨hoh, hbo, fun s => ?_, hcs, hcd⟩
  show addQty 1 st.on_order prop s = transitSum (st.transit ++ [⟨day + DEFAULT_LEAD_DAYS, prop⟩]) s
  rw [addQty_apply, transitSum_append, hoo s]
  unfold transitSum
  simp only [List.map_cons, List.map_nil, List.sum_cons, List.sum_nil]
  ring

theorem confirmPhase_SimInv (P : Params) (day : ℕ) (dec : Bool) (st : SimState)
    (h : SimInv st) : SimInv (confirmPhase P day dec st) := by
  unfold confirmPhase
  dsimp only
  split_ifs with h1 h2
  · exact place_order_SimInv day _ st h
  · exact h
  · exact h

theorem dayStep_SimInv (P : Params) (b : Bool) (day : ℕ) (st : SimState)
    (h : SimInv st) : SimInv (dayStep P b day st) := by
  unfold dayStep
  apply confirmPhase_SimInv
  exact (demandPhase_Inv P day (arrivalsPhase day st) (Inv_arrivalsPhase day st h)).1

theorem runSim_SimInv (P : Params) (dec : ℕ → Bool) (inv0 : SKU → ℚ) (n : ℕ) :
    SimInv (runSim P dec inv0 n) := by
  induction n with
  | zero => exact Inv_initState inv0
  | succ n ih => exact dayStep_SimInv P (dec n) n _ ih

theorem SimInv_on_order_nonneg (st : SimState) (h : SimInv st) (s : SKU) :
    0 ≤ st.on_order s := by
  rw [h.2.2.1 s]
  exact transitSum_nonneg _ _

theorem LedgerInv_on_order_nonneg (st : SimState) (h : LedgerInv st) (s : SKU) :
    0 ≤ st.on_order s := by
  rw [h.2.2 s]
  exact transitSum_nonneg _ _

/-- C5: for every input data set and every simulated day, all three ledger
columns are non-negative, both at the end of the day and after each of the
intermediate mutations (arrivals, demand processing). -/
theorem C5_nonnegativity (P : Params) (dec : ℕ → Bool) (inv0 : SKU → ℚ) (n : ℕ) (s : SKU) :
    (0 ≤ (runSim P dec inv0 n).on_hand s ∧ 0 ≤ (runSim P dec inv0 n).on_order s ∧
      0 ≤ (runSim P dec inv0 n).backorders s) ∧
    (0 ≤ (arrivalsPhase n (runSim P dec inv0 n)).on_hand s ∧
      0 ≤ (arrivalsPhase n (runSim P dec inv0 n)).on_order s ∧
      0 ≤ (arrivalsPhase n (runSim P dec inv0 n)).backorders s) ∧
    (0 ≤ (demandPhase P n (arrivalsPhase n (runSim P dec inv0 n))).1.on_hand s ∧
      0 ≤ (demandPhase P n (arrivalsPhase n (runSim P dec inv0 n))).1.on_order s ∧
      0 ≤ (demandPhase P n (arrivalsPhase n (runSim P dec inv0 n))).1.backorders s) := by
  have h0 := runSim_SimInv P dec inv0 n
  have hA := Inv_arrivalsPhase n (runSim P dec inv0 n) h0
  have hD := (demandPhase_Inv P n (arrivalsPhase n (runSim P dec inv0 n)) hA).2
  exact ⟨⟨h0.1 s, SimInv_on_order_nonneg _ h0 s, h0.2.1 s⟩,
    ⟨hA.1 s, SimInv_on_order_nonneg _ hA s, hA.2.1 s⟩,
    ⟨hD.1 s, LedgerInv_on_order_nonneg _ hD s, hD.2.1 s⟩⟩

theorem cum_fill_rate_bounds (st : SimState) (h1 : 0 ≤ st.cum_shipped)
    (h2 : st.cum_shipped ≤ st.cum_demand) :
    0 ≤ cum_fill_rate st ∧ cum_fill_rate st ≤ 100 := by
  unfold cum_fill_rate
  split_ifs with hd
  · have hs : (0:ℚ) ≤ (st.cum_shipped : ℚ) := by exact_mod_cast h1
    have hdp : (0:ℚ) < (st.cum_demand : ℚ) := by exact_mod_cast hd
    have hle : (st.cum_shipped : ℚ) ≤ (st.cum_demand : ℚ) := by exact_mod_cast h2
    have hq : (st.cum_shipped : ℚ) / (st.cum_demand : ℚ) ≤ 1 := (div_le_one hdp).mpr hle
    constructor
    · positivity
    · nlinarith
  · norm_num

/-- C6: on every simulated day the cumulative fill rate equals
`shipped/demand × 100` when cumulative demand is positive and exactly `100`
when it is zero, always lies in `[0, 100]`, and the cumulative backorder
ratio is its complement to 100. -/
theorem C6_fill_rate (P : Params) (dec : ℕ → Bool) (inv0 : SKU → ℚ) (n : ℕ) :
    0 ≤ cum_fill_rate (runSim P dec inv0 n) ∧
    cum_fill_rate (runSim P dec inv0 n) ≤ 100 ∧
    ((runSim P dec inv0 n).cum_demand = 0 → cum_fill_rate (runSim P dec inv0 n) = 100) ∧
    (0 < (runSim P dec inv0 n).cum_demand →
      cum_fill_rate (runSim P dec inv0 n) =
        ((runSim P dec inv0 n).cum_shipped : ℚ) / ((runSim P dec inv0 n).cum_demand : ℚ) * 100) ∧
    cum_bo_ratio (runSim P dec inv0 n) = 100 - cum_fill_rate (runSim P dec inv0 n) := by
  have h0 := runSim_SimInv P dec inv0 n
  rcases cum_fill_rate_bounds (runSim P dec inv0 n) h0.2.2.2.1 h0.2.2.2.2 with ⟨hb1, hb2⟩
  refine ⟨hb1, hb2, fun hz => ?_, fun hp => ?_, rfl⟩
  · unfold cum_fill_rate
    rw [if_neg (by omega)]
  · unfold cum_fill_rate
    rw [if_pos hp]

/-- C6 witness: the theorem applied on day 0 of an empty simulation, where
cumulative demand is zero and the fill rate is exactly 100. -/
theorem C6_witness :
    0 ≤ cum_fill_rate (runSim P3 (fun _ => false) (fun _ => 0) 0) ∧
    cum_fill_rate (runSim P3 (fun _ => false) (fun _ => 0) 0) = 100 :=
  ⟨(C6_fill_rate P3 (fun _ => false) (fun _ => 0) 0).1,
   (C6_fill_rate P3 (fun _ => false) (fun _ => 0) 0).2.2.1 rfl⟩

/-- C4 witness: the conservation identity applied on day 0 to the concrete
single-SKU data set (no arrivals, no demand, five backorders). -/
theorem C4_witness :
    (dayStep P3 false 0 stC1).on_hand "A" =
      stC1.on_hand "A" + arrivalsQty stC1 0 "A" -
        (shipSku (as_int (P3.demand 0 "A")) ((arrivalsPhase 0 stC1).on_hand "A")
          ((arrivalsPhase 0 stC1).backorders "A")).2.2 ∧
    ((arrivalsPhase 0 stC1).on_hand "A" < as_int (P3.demand 0 "A") →
      (dayStep P3 false 0 stC1).backorders "A" =
        stC1.backorders "A" + (as_int (P3.demand 0 "A") -
          (shipSku (as_int (P3.demand 0 "A")) ((arrivalsPhase 0 stC1).on_hand "A")
            ((arrivalsPhase 0 stC1).backorders "A")).2.2)) ∧
    (as_int (P3.demand 0 "A") ≤ (arrivalsPhase 0 stC1).on_hand "A" →
      (dayStep P3 false 0 stC1).backorders "A" = stC1.backorders "A") :=
  C4_conservation P3 false 0 stC1 "A" (by simp [P3]) (by simp [P3]) (by norm_num [stC1])

/-! ### Pending-batch dynamics (C8, C9, C10) -/

theorem getv_triggerSku_ge (P : Params) (st : SimState) (x s : SKU) :
    getv st.pending s ≤ getv (triggerSku P st x) s := by
  unfold triggerSku
  dsimp only
  split_ifs with h1 h2 h3
  · rw [getv_setv]
    by_cases hxs : x = s
    · subst hxs
      rw [if_pos rfl]
      have hmax : getv st.pending x ≤ max 0 (getv st.pending x) := le_max_right _ _
      omega
    · rw [if_neg hxs]
  · exact le_refl _
  · exact le_refl _
  · exact le_refl _

theorem foldl_skuStep_pending_ge (P : Params) (day : ℕ) (l : List SKU) (s : SKU) :
    ∀ acc : SimState × ℤ × ℤ,
      getv acc.1.pending s ≤ getv ((l.foldl (skuStep P day)) acc).1.pending s := by
  induction l with
  | nil => intro acc; exact le_refl _
  | cons x t ih =>
    intro acc
    dsimp only
    rw [List.foldl_cons]
    refine le_trans ?_ (ih (skuStep P day acc x))
    show getv acc.1.pending s ≤ getv (skuStep P day acc x).1.pending s
    unfold skuStep
    dsimp only
    exact getv_triggerSku_ge P _ x s

theorem demandPhase_pending_ge (P : Params) (day : ℕ) (st : SimState) (s : SKU) :
    getv st.pending s ≤ getv (demandPhase P day st).1.pending s :=
  foldl_skuStep_pending_ge P day P.skus s (st, 0, 0)

/-- C8: across a full simulated day, a SKU's pending quantity never
decreases — unless that day's batch is confirmed with the SKU included, in
which case its pending entry resets to zero; during the trigger phase the
pending value only rises, and a trigger rewrites an entry only when the
freshly computed need strictly exceeds the previously pending value. -/
theorem C8_pending_monotone (P : Params) (dec : Bool) (day : ℕ) (st : SimState) (s : SKU) :
    (getv st.pending s ≤ getv (demandPhase P day (arrivalsPhase day st)).1.pending s) ∧
    (getv st.pending s ≤ getv (dayStep P dec day st).pending s ∨
      ((propose_batch P.weight_map
          (demandPhase P day (arrivalsPhase day st)).1.pending).1 = true ∧
        dec = true ∧
        s ∈ ((propose_batch P.weight_map
          (demandPhase P day (arrivalsPhase day st)).1.pending).2.1.map Prod.fst) ∧
        getv (dayStep P dec day st).pending s = 0)) ∧
    (∀ st' : SimState, ∀ x : SKU, triggerSku P st' x ≠ st'.pending →
      max 0 (getv st'.pending x) < order_need_qty P st' x ∧
      triggerSku P st' x = setv st'.pending x (order_need_qty P st' x)) := by
  have hmid : getv st.pending s ≤
      getv (demandPhase P day (arrivalsPhase day st)).1.pending s := by
    have h1 := demandPhase_pending_ge P day (arrivalsPhase day st) s
    rw [arrivalsPhase_pending day st] at h1
    exact h1
  refine ⟨hmid, ?_, ?_⟩
  · unfold dayStep confirmPhase
    dsimp only
    split_ifs with h1 h2
    · by_cases hs : s ∈ ((propose_batch P.weight_map
          (demandPhase P day (arrivalsPhase day st)).1.pending).2.1.map Prod.fst)
      · refine Or.inr ⟨h1, h2, hs, ?_⟩
        exact getv_filter_mem _ _ s hs
      · refine Or.inl ?_
        show getv st.pending s ≤ getv ((demandPhase P day (arrivalsPhase day st)).1.pending.filter _) s
        rw [getv_filter_not_mem _ _ s hs]
        exact hmid
    · exact Or.inl hmid
    · exact Or.inl hmid
  · intro st' x hne
    unfold triggerSku at hne ⊢
    dsimp only at hne ⊢
    split_ifs at hne ⊢ with h1 h2 h3
    · exact ⟨h3, rfl⟩
    · exact absurd rfl hne
    · exact absurd rfl hne
    · exact absurd rfl hne

/-- C9: when a proposed batch is rejected at the confirmation step, the
day's confirm phase is the identity: the whole state — ledger columns, open
purchase orders and the pending batch — is exactly as before the proposal. -/
theorem C9_rejection_frame (P : Params) (day : ℕ) (st : SimState)
    (h : (propose_batch P.weight_map st.pending).1 = true) :
    confirmPhase P day false st = st := by
  unfold confirmPhase
  dsimp only
  rw [if_pos h]
  rfl

/-- C10: committing a confirmed batch pops the whole pending entry of every
included SKU — also when the included quantity was truncated below the
requested pending quantity; the unshipped remainder is discarded. -/
theorem C10_truncated_commit_clears (P : Params) (day : ℕ) (st : SimState) (s : SKU) (q : ℤ)
    (hcan : (propose_batch P.weight_map st.pending).1 = true)
    (hmem : (s, q) ∈ (propose_batch P.weight_map st.pending).2.1)
    (_hlt : q < getv st.pending s) :
    getv (confirmPhase P day true st).pending s = 0 := by
  unfold confirmPhase
  dsimp only
  rw [if_pos hcan]
  show getv (st.pending.filter _) s = 0
  apply getv_filter_mem
  exact List.mem_map.mpr ⟨(s, q), hmem, rfl⟩

/-- C3 witness: the amended formula instantiated at the concrete data set. -/
theorem C3_witness :
    order_need_qty P3 stC1 "A" =
      max (as_int (P3.eoq_map "A"))
        (max 0 (stC1.backorders "A") +
          as_int (max 0 (P3.mu_map "A" * 45 + P3.ss_map "A" -
            ((max 0 (stC1.on_hand "A" + stC1.on_order "A" - stC1.backorders "A") : ℤ) : ℚ)))) :=
  (C3_order_need_formula P3 stC1 "A").1

/-- C5 witness: non-negativity instantiated on day 1 of the concrete data
set. -/
theorem C5_witness :
    0 ≤ (runSim P3 (fun _ => false) (fun _ => 0) 1).on_hand "A" ∧
    0 ≤ (runSim P3 (fun _ => false) (fun _ => 0) 1).on_order "A" ∧
    0 ≤ (runSim P3 (fun _ => false) (fun _ => 0) 1).backorders "A" :=
  (C5_nonnegativity P3 (fun _ => false) (fun _ => 0) 1 "A").1

/-- C8 witness: pending monotonicity through the demand phase instantiated
at the concrete data set. -/
theorem C8_witness :
    getv stC1.pending "A" ≤
      getv (demandPhase P3 0 (arrivalsPhase 0 stC1)).1.pending "A" :=
  (C8_pending_monotone P3 false 0 stC1 "A").1

/-! ### Concrete shippable batches for the C9/C10 witnesses -/

theorem qty11_wmW : qty_to_tons "A" 11 wmW = 11 := by
  rw [qty_to_tons_int, pw_wmW, show (max 0 11 : ℤ) = 11 from by decide]
  norm_num

theorem propose_batch_W : propose_batch wmW pendW = (true, [("A", 11)], 0 + 11) := by
  unfold propose_batch
  rw [show pendW.isEmpty = false from rfl]
  simp only [Bool.false_eq_true, if_false]
  rw [show sortByKey (fun p => -qty_to_tons p.1 p.2 wmW) pendW = [("A", 11)] from rfl]
  rw [show batch_tons wmW pendW = 11 from by
    unfold batch_tons pendW
    rw [List.map_cons, List.map_nil, List.sum_cons, List.sum_nil, qty11_wmW]
    ring]
  rw [if_neg (show ¬ ((11 : ℚ) < TRUCK_MIN_TONS) from by norm_num [TRUCK_MIN_TONS])]
  rw [show packLoop wmW [("A", 11)] [] 0 = ([("A", 11)], 0 + 11) from by
    simp only [packLoop]
    rw [if_neg (show ¬ ((max 0 11 : ℤ) ≤ 0) from by decide)]
    rw [show (max 0 11 : ℤ) = 11 from by decide, qty11_wmW]
    rw [if_pos (show (0 : ℚ) + 11 ≤ TRUCK_MAX_TONS from by norm_num [TRUCK_MAX_TONS])]
    rfl]
  rw [if_pos (show TRUCK_MIN_TONS ≤ (0 : ℚ) + 11 from by norm_num [TRUCK_MIN_TONS])]

/-- Policy inputs whose weight map makes `pendW` an 11-ton shippable batch. -/
def PC9 : Params :=
  { skus := ["A"]
    mu_map := fun _ => 0
    ss_map := fun _ => 0
    rop_map := fun _ => 0
    eoq_map := fun _ => 0
    weight_map := wmW
    demand := fun _ _ => 0 }

/-- A state holding the 11-ton pending batch. -/
def stC9 : SimState :=
  { on_hand := fun _ => 0
    on_order := fun _ => 0
    backorders := fun _ => 0
    pending := pendW
    transit := []
    cum_demand := 0
    cum_shipped := 0 }

/-- C9 witness: rejecting the concrete 11-ton proposal changes nothing. -/
theorem C9_witness : confirmPhase PC9 0 false stC9 = stC9 :=
  C9_rejection_frame PC9 0 stC9 (by
    show (propose_batch wmW pendW).1 = true
    rw [propose_batch_W])

/-- A five-tonne-per-piece weight map: three pending pieces weigh 15 t, but
only two (10 t) fit the truck, so the proposal truncates the SKU. -/
def wmT : SKU → Option ℚ := fun _ => some 5000

/-- Three pending pieces of SKU `A` under `wmT`. -/
def pendT : List (SKU × ℤ) := [("A", 3)]

theorem pw_wmT : piece_weight_kg "A" wmT = 5000 := by
  unfold piece_weight_kg wmT
  norm_num

theorem qty3_wmT : qty_to_tons "A" 3 wmT = 15 := by
  rw [qty_to_tons_int, pw_wmT, show (max 0 3 : ℤ) = 3 from by decide]
  norm_num

theorem qty2_wmT : qty_to_tons "A" 2 wmT = 10 := by
  rw [qty_to_tons_int, pw_wmT, show (max 0 2 : ℤ) = 2 from by decide]
  norm_num

theorem allow_wmT :
    overflow_allowed wmT "A" (max 0 (TRUCK_MAX_TONS * 1000 - 0 * 1000)) = 2 := by
  unfold overflow_allowed
  dsimp only
  rw [pw_wmT, if_pos (by norm_num : (0:ℚ) < 5000),
    show max (0:ℚ) (TRUCK_MAX_TONS * 1000 - 0 * 1000) = 12000 from by
      norm_num [TRUCK_MAX_TONS],
    show (12000 : ℚ) / 5000 = 12 / 5 from by norm_num]
  exact as_int_eq_of (by norm_num) (by norm_num [eps]) (by norm_num [eps])

theorem propose_batch_T : propose_batch wmT pendT = (true, [("A", 2)], 0 + 10) := by
  unfold propose_batch
  rw [show pendT.isEmpty = false from rfl]
  simp only [Bool.false_eq_true, if_false]
  rw [show sortByKey (fun p => -qty_to_tons p.1 p.2 wmT) pendT = [("A", 3)] from rfl]
  rw [show batch_tons wmT pendT = 15 from by
    unfold batch_tons pendT
    rw [List.map_cons, List.map_nil, List.sum_cons, List.sum_nil, qty3_wmT]
    ring]
  rw [if_neg (show ¬ ((15 : ℚ) < TRUCK_MIN_TONS) from by norm_num [TRUCK_MIN_TONS])]
  rw [show packLoop wmT [("A", 3)] [] 0 = ([("A", 2)], 0 + 10) from by
    simp only [packLoop]
    rw [if_neg (show ¬ ((max 0 3 : ℤ) ≤ 0) from by decide)]
    rw [show (max 0 3 : ℤ) = 3 from by decide, qty3_wmT]
    rw [if_neg (show ¬ ((0 : ℚ) + 15 ≤ TRUCK_MAX_TONS) from by norm_num [TRUCK_MAX_TONS])]
    rw [allow_wmT]
    rw [if_pos (show (0 : ℤ) < 2 from by decide), qty2_wmT]
    simp]
  rw [if_pos (show TRUCK_MIN_TONS ≤ (0 : ℚ) + 10 from by norm_num [TRUCK_MIN_TONS])]

/-- Policy inputs carrying the truncating weight map `wmT`. -/
def PT : Params :=
  { skus := ["A"]
    mu_map := fun _ => 0
    ss_map := fun _ => 0
    rop_map := fun _ => 0
    eoq_map := fun _ => 0
    weight_map := wmT
    demand := fun _ _ => 0 }

/-- A state holding the 15-ton pending request that gets truncated to 10 t. -/
def stT : SimState :=
  { on_hand := fun _ => 0
    on_order := fun _ => 0
    backorders := fun _ => 0
    pending := pendT
    transit := []
    cum_demand := 0
    cum_shipped := 0 }

/-- C10 witness: committing the truncated proposal (2 of the 3 pending
pieces) clears the whole pending entry of SKU `A`. -/
theorem C10_witness : getv (confirmPhase PT 0 true stT).pending "A" = 0 :=
  C10_truncated_commit_clears PT 0 stT "A" 2
    (by
      show (propose_batch wmT pendT).1 = true
      rw [propose_batch_T])
    (by
      show ("A", (2:ℤ)) ∈ (propose_batch wmT pendT).2.1
      rw [propose_batch_T]
      simp)
    (by
      show (2:ℤ) < getv pendT "A"
      decide)
